import Mathlib

/-
  Verification of the RAG core of github.com/GeoloeG-IsT/gollem (pkg/rag).

  Shallow embedding conventions:
  * Go strings are modelled as `List Char` (byte/char distinction is irrelevant here:
    all concrete inputs are ASCII and Go indexes bytes, our model indexes chars).
  * Go `[]float32` embedding vectors are modelled as `List ℚ` in the executable
    retrieval pipeline, and as `List ℝ` for the analytic properties of
    `cosineSimilarity` (float32 rounding is idealised as exact arithmetic; every
    concrete theorem below uses values on which float32 arithmetic is also exact,
    or uses ties produced by bitwise-identical inputs).
  * `map[string]interface{}` metadata is modelled as `List (String × String)`;
    it is passed through the chunker opaquely.
  * Fallible Go functions returning `(T, error)` are modelled as `Except String T`;
    stateful methods on `MemoryVectorStore` take and return the chunk list that the
    Go code guards with its mutex.
-/

namespace Gollem

/-- Chunk mirrors `rag.Chunk` (pkg/rag/rag.go): ID, DocumentID, Content, Metadata,
Embedding.  A `nil` Go embedding is modelled as `[]`. -/
structure Chunk where
  id : String
  documentId : String
  content : List Char
  metadata : List (String × String)
  embedding : List ℚ
  deriving Repr, DecidableEq, Inhabited

/-- Document mirrors `rag.Document` (pkg/rag/rag.go): ID, Content, Metadata,
Embedding (`nil` modelled as `none`). -/
structure Document where
  id : String
  content : List Char
  metadata : List (String × String)
  embedding : Option (List ℚ)
  deriving Repr, DecidableEq, Inhabited

/-- The loop body of `RAG.chunkDocument` (rag.go:228-244): starting at offset `i`,
emit the window `content[i : min (i+chunkSize) (len content)]` with id
`documentID ++ "-" ++ i`, advance by `stride = chunkSize - chunkOverlap`, and stop
right after the first window whose end reaches `len content`.
The Go loop does not terminate when `stride ≤ 0` (see the C4 analysis: `i` is never
advanced); the model returns `[]` in that unreachable-under-valid-config case so that
the definition is total.  All theorems about this function assume `0 < stride`. -/
def chunkLoop (docId : String) (meta : List (String × String)) (content : List Char)
    (chunkSize stride : Nat) (i : Nat) : List Chunk :=
  if _hstride : stride = 0 then []
  else if _hi : i < content.length then
    let e := min (i + chunkSize) content.length
    let c : Chunk :=
      ⟨docId ++ "-" ++ toString i, docId, (content.drop i).take (e - i), meta, []⟩
    if e = content.length then [c]
    else c :: chunkLoop docId meta content chunkSize stride (i + stride)
  else []
  termination_by content.length - i
  decreasing_by omega

/-- Model of `RAG.chunkDocument` (rag.go:209-247): if the content fits in one chunk
return a single chunk with id `documentID ++ "-0"`, otherwise run the sliding-window
loop from offset 0. -/
def chunkDocument (chunkSize chunkOverlap : Nat) (document : Document) : List Chunk :=
  let content := document.content
  if content.length ≤ chunkSize then
    [⟨document.id ++ "-0", document.id, content, document.metadata, []⟩]
  else
    chunkLoop document.id document.metadata content chunkSize (chunkSize - chunkOverlap) 0

/-- The window that the claim C5 predicts at start offset `i`:
width `chunkSize`, clipped to the end of the content, with id
`documentID ++ "-" ++ i`. -/
def window (docId : String) (meta : List (String × String)) (content : List Char)
    (chunkSize : Nat) (i : Nat) : Chunk :=
  ⟨docId ++ "-" ++ toString i, docId,
    (content.drop i).take (min chunkSize (content.length - i)), meta, []⟩

/-- Number of windows the loop emits when started at offset `i < len content`
with `i + chunkSize` possibly beyond the end. -/
def windowCount (contentLen chunkSize stride i : Nat) : Nat :=
  if contentLen ≤ i + chunkSize then 1
  else (contentLen - i - chunkSize + stride - 1) / stride + 1

theorem chunkLoop_spec (docId : String) (meta : List (String × String))
    (content : List Char) (chunkSize stride : Nat) (hstride : 0 < stride)
    (hsz : stride ≤ chunkSize) :
    ∀ m i, content.length - i ≤ m → i < content.length →
      chunkLoop docId meta content chunkSize stride i =
        (List.range (windowCount content.length chunkSize stride i)).map
          (fun j => window docId meta content chunkSize (i + j * stride)) := by
  intro m
  induction m with
  | zero => intro i him hi; omega
  | succ m ih =>
    intro i him hi
    rw [chunkLoop]
    rw [dif_neg (by omega), dif_pos hi]
    by_cases hend : min (i + chunkSize) content.length = content.length
    · rw [if_pos hend]
      have h1 : content.length ≤ i + chunkSize := by omega
      rw [windowCount, if_pos h1]
      rw [show List.range 1 = [0] from rfl]
      simp only [List.map_cons, List.map_nil]
      have : i + 0 * stride = i := by omega
      rw [this, window]
      have : min (i + chunkSize) content.length - i = min chunkSize (content.length - i) := by
        omega
      rw [this]
    · rw [if_neg hend]
      have h1 : i + chunkSize < content.length := by omega
      have hi' : i + stride < content.length := by omega
      rw [ih (i + stride) (by omega) hi']
      have hcnt : windowCount content.length chunkSize stride i =
          windowCount content.length chunkSize stride (i + stride) + 1 := by
        rw [windowCount, windowCount, if_neg (by omega)]
        by_cases h2 : content.length ≤ i + stride + chunkSize
        · rw [if_pos h2]
          have : (content.length - i - chunkSize + stride - 1) / stride = 1 :=
            Nat.div_eq_of_lt_le (by omega) (by omega)
          omega
        · rw [if_neg h2]
          have heq : content.length - i - chunkSize + stride - 1 =
              (content.length - (i + stride) - chunkSize + stride - 1) + stride := by omega
          rw [heq, Nat.add_div_right _ hstride]
      rw [hcnt, List.range_succ_eq_map]
      simp only [List.map_cons, List.map_map]
      congr 1
      · rw [window]
        have : i + 0 * stride = i := by omega
        rw [this]
        have : min (i + chunkSize) content.length - i = min chunkSize (content.length - i) := by
          omega
        rw [this]
      · apply List.map_congr_left
        intro j _
        simp only [Function.comp_apply]
        have : i + stride + j * stride = i + (j + 1) * stride := by ring
        rw [this]

/-- C5: for chunk parameters `0 < chunk_size` and `chunk_overlap < chunk_size`:
a document whose content fits into one chunk yields exactly the single chunk
`"{document_id}-0"` holding the whole content; a longer document yields one chunk
per window of width `chunk_size` at stride `chunk_size - chunk_overlap` starting at
offset 0 (the final window clipped to the content length), the chunk at window `j`
having id `"{document_id}-{j·stride}"`, and the number of chunks is
`ceil((len content - chunk_overlap) / (chunk_size - chunk_overlap))`. -/
theorem chunkDocument_spec (chunkSize chunkOverlap : Nat) (document : Document)
    (_hsize : 0 < chunkSize) (hov : chunkOverlap < chunkSize) :
    (document.content.length ≤ chunkSize →
      chunkDocument chunkSize chunkOverlap document =
        [⟨document.id ++ "-0", document.id, document.content, document.metadata, []⟩]) ∧
    (chunkSize < document.content.length →
      chunkDocument chunkSize chunkOverlap document =
        (List.range
            ((document.content.length - chunkOverlap + (chunkSize - chunkOverlap) - 1) /
              (chunkSize - chunkOverlap))).map
          (fun j => window document.id document.metadata document.content chunkSize
            (j * (chunkSize - chunkOverlap)))) := by
  constructor
  · intro hle
    rw [chunkDocument, if_pos hle]
  · intro hgt
    rw [chunkDocument, if_neg (by omega)]
    rw [chunkLoop_spec document.id document.metadata document.content chunkSize
      (chunkSize - chunkOverlap) (by omega) (by omega) document.content.length 0
      (by omega) (by omega)]
    have hcnt : windowCount document.content.length chunkSize (chunkSize - chunkOverlap) 0 =
        (document.content.length - chunkOverlap + (chunkSize - chunkOverlap) - 1) /
          (chunkSize - chunkOverlap) := by
      rw [windowCount, if_neg (by omega)]
      have heq : document.content.length - chunkOverlap + (chunkSize - chunkOverlap) - 1 =
          (document.content.length - 0 - chunkSize + (chunkSize - chunkOverlap) - 1) +
            (chunkSize - chunkOverlap) := by omega
      rw [heq, Nat.add_div_right _ (by omega)]
    rw [hcnt]
    apply List.map_congr_left
    intro j _
    have : 0 + j * (chunkSize - chunkOverlap) = j * (chunkSize - chunkOverlap) := by omega
    rw [this]

/-- Witness for C5 at a concrete input: content "abcdefg" (7 chars), chunk_size 3,
chunk_overlap 1, giving 3 chunks "abc", "cde", "efg" at offsets 0, 2, 4. -/
theorem chunkDocument_spec_witness :
    chunkDocument 3 1 ⟨"d", "abcdefg".data, [], none⟩ =
      [⟨"d-0", "d", "abc".data, [], []⟩,
       ⟨"d-2", "d", "cde".data, [], []⟩,
       ⟨"d-4", "d", "efg".data, [], []⟩] := by
  have h := (chunkDocument_spec 3 1 ⟨"d", "abcdefg".data, [], none⟩
    (by decide) (by decide)).2 (by decide)
  rw [h]
  decide

/-- Model of `MemoryVectorStore.AddChunks` (rag.go:391-399): under the store mutex
the chunks are appended to `s.chunks` and `nil` is returned.  There is no dimension
check of any kind in the source. -/
def AddChunks (store chunks : List Chunk) : Except String (List Chunk) :=
  .ok (store ++ chunks)

/-- The configurable state that `NewRAG`'s functional options mutate
(rag.go:52-67): whether a vector store / embeddings provider has been supplied,
plus ChunkSize, ChunkOverlap and TopK. -/
structure RAGState where
  hasVectorStore : Bool
  hasEmbeddings : Bool
  chunkSize : Int
  chunkOverlap : Int
  topK : Int
  deriving Repr, DecidableEq

/-- Model of `WithVectorStore` (rag.go:73-77). -/
def WithVectorStore (r : RAGState) : RAGState := { r with hasVectorStore := true }

/-- Model of `WithEmbeddings` (rag.go:80-84). -/
def WithEmbeddings (r : RAGState) : RAGState := { r with hasEmbeddings := true }

/-- Model of `WithChunkSize` (rag.go:87-91): stores the value unconditionally. -/
def WithChunkSize (chunkSize : Int) (r : RAGState) : RAGState :=
  { r with chunkSize := chunkSize }

/-- Model of `WithChunkOverlap` (rag.go:94-98): stores the value unconditionally,
with no validation or clamping. -/
def WithChunkOverlap (chunkOverlap : Int) (r : RAGState) : RAGState :=
  { r with chunkOverlap := chunkOverlap }

/-- Model of `WithTopK` (rag.go:101-105). -/
def WithTopK (topK : Int) (r : RAGState) : RAGState := { r with topK := topK }

/-- Model of `NewRAG` (rag.go:108-128): start from the defaults
(ChunkSize 1000, ChunkOverlap 200, TopK 3, no store, no embeddings), apply the
options in order, then reject a missing vector store or embeddings provider.
These are the only two validations in the source. -/
def NewRAG (options : List (RAGState → RAGState)) : Except String RAGState :=
  let r := options.foldl (fun r o => o r) ⟨false, false, 1000, 200, 3⟩
  if r.hasVectorStore = false then .error "vector store is required"
  else if r.hasEmbeddings = false then .error "embeddings provider is required"
  else .ok r

/-- C4: contrary to the claim, `NewRAG` accepts every chunk_size/chunk_overlap
combination — including `chunk_overlap ≥ chunk_size` — without a configuration
error and without clamping either value (the returned state holds them verbatim).
With such a configuration `RAG.chunkDocument` then fails to terminate on any
content longer than chunk_size, because the loop increment
`chunkSize - chunkOverlap` is ≤ 0 (rag.go:228). -/
theorem NewRAG_accepts_any_overlap (chunkSize chunkOverlap : Int) :
    NewRAG [WithVectorStore, WithEmbeddings,
      WithChunkSize chunkSize, WithChunkOverlap chunkOverlap] =
      .ok ⟨true, true, chunkSize, chunkOverlap, 3⟩ := rfl

/-- Counterexample to C3: a store holding one chunk of embedding dimension 3
accepts a batch containing a chunk of dimension 2 — `AddChunks` returns success
(not a `DimensionMismatchError`, which exists nowhere in the source) and the
store is mutated. -/
theorem AddChunks_accepts_dimension_mismatch :
    AddChunks [⟨"a", "d", [], [], [1, 2, 3]⟩] [⟨"b", "d", [], [], [1, 2]⟩] =
      .ok [⟨"a", "d", [], [], [1, 2, 3]⟩, ⟨"b", "d", [], [], [1, 2]⟩] ∧
    ([⟨"a", "d", [], [], [1, 2, 3]⟩, ⟨"b", "d", [], [], [1, 2]⟩] : List Chunk) ≠
      [⟨"a", "d", [], [], [1, 2, 3]⟩] := by
  constructor
  · rfl
  · decide

/-- C3 as amended: inserting a batch containing a chunk whose embedding length
differs from the (unique) dimension of a non-empty store returns success and
appends the whole batch; no dimension check is performed and no error is ever
returned. -/
theorem AddChunks_appends_unconditionally (store batch : List Chunk) (dim : Nat)
    (_hne : store ≠ []) (_hdim : ∀ c ∈ store, c.embedding.length = dim)
    (c : Chunk) (_hc : c ∈ batch) (_hmis : c.embedding.length ≠ dim) :
    AddChunks store batch = .ok (store ++ batch) := rfl

/-- Witness for the amended C3 at the concrete mismatching input of the
counterexample. -/
theorem AddChunks_appends_unconditionally_witness :
    AddChunks [⟨"a", "d", [], [], [1, 2, 3]⟩] [⟨"b", "d", [], [], [1, 2]⟩] =
      .ok [⟨"a", "d", [], [], [1, 2, 3]⟩, ⟨"b", "d", [], [], [1, 2]⟩] :=
  AddChunks_appends_unconditionally _ _ 3 (by decide)
    (by intro c hc; rw [List.mem_singleton] at hc; subst hc; decide)
    ⟨"b", "d", [], [], [1, 2]⟩ (by decide) (by decide)

/-- Dot product of two vectors as accumulated by the loop of `cosineSimilarity`
(rag.go:476-480). -/
def dotProduct (a b : List ℝ) : ℝ := (List.zipWith (fun x y => x * y) a b).sum

/-- The accumulated `normA`/`normB` of `cosineSimilarity` (rag.go:476-480): the sum
of the squares of the entries (the squared Euclidean norm). -/
def normSq (a : List ℝ) : ℝ := (a.map fun x => x * x).sum

/-- Euclidean norm of a vector, `math.Sqrt` idealised as `Real.sqrt`. -/
noncomputable def normL2 (a : List ℝ) : ℝ := Real.sqrt (normSq a)

/-- Model of `cosineSimilarity` (rag.go:467-487), float32 arithmetic idealised as
real arithmetic: 0 on mismatched lengths, 0 when either accumulated squared norm is
zero, otherwise `dot / (sqrt normA * sqrt normB)`. -/
noncomputable def cosineSimilarity (a b : List ℝ) : ℝ :=
  if a.length ≠ b.length then 0
  else if normSq a = 0 ∨ normSq b = 0 then 0
  else dotProduct a b / (Real.sqrt (normSq a) * Real.sqrt (normSq b))

theorem normSq_nonneg (a : List ℝ) : 0 ≤ normSq a := by
  apply List.sum_nonneg
  intro x hx
  rcases List.mem_map.mp hx with ⟨y, _, rfl⟩
  exact mul_self_nonneg y

theorem normSq_pos (a : List ℝ) (h : ∃ x ∈ a, x ≠ 0) : 0 < normSq a := by
  rcases h with ⟨x, hx, hx0⟩
  have hmem : x * x ∈ a.map fun y => y * y := List.mem_map_of_mem _ hx
  have hxx : 0 < x * x := mul_self_pos.mpr hx0
  have hle : x * x ≤ normSq a := by
    apply List.single_le_sum _ _ hmem
    intro y hy
    rcases List.mem_map.mp hy with ⟨z, _, rfl⟩
    exact mul_self_nonneg z
  linarith

theorem dotProduct_self (a : List ℝ) : dotProduct a a = normSq a := by
  induction a with
  | nil => rfl
  | cons x t ih =>
    simp only [dotProduct, normSq, List.zipWith_cons_cons, List.map_cons,
      List.sum_cons] at *
    rw [ih]

theorem dotProduct_comm (a b : List ℝ) : dotProduct a b = dotProduct b a := by
  unfold dotProduct
  rw [List.zipWith_comm_of_comm]
  intro x y
  exact mul_comm x y

/-- C9: cosine similarity (idealised over ℝ) equals `dot (a,b) / (‖a‖·‖b‖)` for
same-dimension vectors of positive norm; `sim(a,a) = 1` for every vector with a
non-zero entry; `sim` is symmetric; and `sim` is 0 — with no error and no division
by zero — whenever either argument has zero norm. -/
theorem cosineSimilarity_spec :
    (∀ a b : List ℝ, a.length = b.length → 0 < normL2 a → 0 < normL2 b →
      cosineSimilarity a b = dotProduct a b / (normL2 a * normL2 b)) ∧
    (∀ a : List ℝ, (∃ x ∈ a, x ≠ 0) → cosineSimilarity a a = 1) ∧
    (∀ a b : List ℝ, cosineSimilarity a b = cosineSimilarity b a) ∧
    (∀ a b : List ℝ, normL2 a = 0 ∨ normL2 b = 0 → cosineSimilarity a b = 0) := by
  have hlen_refl : ∀ a : List ℝ, ¬ a.length ≠ a.length := fun a h => h rfl
  have hsqrt_zero : ∀ a : List ℝ, normL2 a = 0 ↔ normSq a = 0 := by
    intro a
    rw [normL2, Real.sqrt_eq_zero (normSq_nonneg a)]
  refine ⟨?_, ?_, ?_, ?_⟩
  · intro a b hlen ha hb
    have ha' : normSq a ≠ 0 := by
      intro h0
      rw [normL2, h0, Real.sqrt_zero] at ha
      exact lt_irrefl 0 ha
    have hb' : normSq b ≠ 0 := by
      intro h0
      rw [normL2, h0, Real.sqrt_zero] at hb
      exact lt_irrefl 0 hb
    rw [cosineSimilarity, if_neg (by rw [hlen]; exact hlen_refl b),
      if_neg (by rintro (h | h) <;> [exact ha' h; exact hb' h])]
    rfl
  · intro a ha
    have hpos : 0 < normSq a := normSq_pos a ha
    rw [cosineSimilarity, if_neg (hlen_refl a),
      if_neg (by rintro (h | h) <;> exact absurd h (ne_of_gt hpos))]
    rw [dotProduct_self, Real.mul_self_sqrt (normSq_nonneg a)]
    exact div_self (ne_of_gt hpos)
  · intro a b
    rw [cosineSimilarity, cosineSimilarity]
    by_cases hlen : a.length = b.length
    · have h1 : ¬ a.length ≠ b.length := fun h => h hlen
      have h2 : ¬ b.length ≠ a.length := fun h => h hlen.symm
      rw [if_neg h1, if_neg h2]
      by_cases hz : normSq a = 0 ∨ normSq b = 0
      · rw [if_pos hz, if_pos (Or.symm hz)]
      · rw [if_neg hz, if_neg (fun h => hz (Or.symm h)),
          dotProduct_comm, mul_comm]
    · rw [if_pos hlen, if_pos (fun h => hlen h.symm)]
  · intro a b hz
    rw [cosineSimilarity]
    by_cases hlen : a.length ≠ b.length
    · rw [if_pos hlen]
    · rw [if_neg hlen, if_pos ?_]
      rcases hz with h | h
      · exact Or.inl ((hsqrt_zero a).mp h)
      · exact Or.inr ((hsqrt_zero b).mp h)

/-- Witness for C9: at the one-entry vector `[1]`, self-similarity is 1. -/
theorem cosineSimilarity_spec_witness : cosineSimilarity [(1 : ℝ)] [1] = 1 :=
  cosineSimilarity_spec.2.1 [1] ⟨1, by simp, one_ne_zero⟩

/-- Executable exact model of `math.Sqrt` on rationals whose numerator and
denominator are perfect squares (the only values that reach it in the concrete
theorems below — there all embedding vectors have perfect-square squared norms, so
float32 `math.Sqrt` is also exact on them); 0 on all other inputs, which no theorem
in this file relies on. -/
def ratSqrt (q : ℚ) : ℚ :=
  let sn : Nat := Nat.sqrt q.num.toNat
  let sd : Nat := Nat.sqrt q.den
  if 0 ≤ q.num ∧ (sn : ℤ) * sn = q.num ∧ (sd : ℤ) * sd = (q.den : ℤ) then
    (sn : ℚ) / (sd : ℚ)
  else 0

theorem ratSqrt_natCast (n : ℕ) : ratSqrt ((n : ℚ) * n) = n := by
  have hq : ((n : ℚ) * n) = ((n * n : ℕ) : ℚ) := by push_cast; ring
  rw [hq, ratSqrt]
  simp only [Rat.num_natCast, Rat.den_natCast, Int.toNat_natCast, Nat.sqrt_eq]
  rw [if_pos ⟨Int.natCast_nonneg _, by push_cast; ring, by norm_num⟩]
  simp

/-- Executable model of `cosineSimilarity` (rag.go:467-487) over exact rationals,
with `math.Sqrt` modelled by `ratSqrt`.  Agreement with the real-valued model
`cosineSimilarity` on perfect-square norms is proved in
`cosineSimilarityQ_agrees`. -/
def cosineSimilarityQ (a b : List ℚ) : ℚ :=
  if a.length ≠ b.length then 0
  else
    let dot := (List.zipWith (fun x y => x * y) a b).sum
    let normA := (a.map fun x => x * x).sum
    let normB := (b.map fun x => x * x).sum
    if normA = 0 ∨ normB = 0 then 0
    else dot / (ratSqrt normA * ratSqrt normB)

/-- The real-valued view of a rational vector, entry by entry. -/
def qvec (a : List ℚ) : List ℝ := a.map fun q : ℚ => (q : ℝ)

theorem sumQ_cast (l : List ℚ) : ((l.sum : ℚ) : ℝ) = (qvec l).sum := by
  induction l with
  | nil => simp [qvec]
  | cons x t ih => simp only [qvec, List.map_cons, List.sum_cons, Rat.cast_add] at *; rw [ih]

theorem normSq_qvec (a : List ℚ) :
    normSq (qvec a) = (((a.map fun x => x * x).sum : ℚ) : ℝ) := by
  rw [sumQ_cast, normSq, qvec, qvec, List.map_map, List.map_map]
  congr 1
  apply List.map_congr_left
  intro x _
  simp [Function.comp, Rat.cast_mul]

theorem dotProduct_qvec (a b : List ℚ) :
    dotProduct (qvec a) (qvec b) =
      (((List.zipWith (fun x y => x * y) a b).sum : ℚ) : ℝ) := by
  rw [sumQ_cast, dotProduct]
  congr 1
  induction a generalizing b with
  | nil => simp [qvec]
  | cons x t ih =>
    cases b with
    | nil => simp [qvec]
    | cons y u =>
      simp only [qvec, List.map_cons, List.zipWith_cons_cons, Rat.cast_mul] at *
      rw [ih]

theorem length_qvec (a : List ℚ) : (qvec a).length = a.length := by
  rw [qvec, List.length_map]

/-- Refinement: on vectors whose squared norms are perfect squares of naturals, the
executable rational pipeline computes exactly the idealised real cosine
similarity. -/
theorem cosineSimilarityQ_agrees (a b : List ℚ) (na nb : ℕ)
    (ha : (a.map fun x => x * x).sum = (na : ℚ) * na)
    (hb : (b.map fun x => x * x).sum = (nb : ℚ) * nb) :
    ((cosineSimilarityQ a b : ℚ) : ℝ) = cosineSimilarity (qvec a) (qvec b) := by
  rw [cosineSimilarityQ, cosineSimilarity]
  by_cases hlen : a.length = b.length
  · have h1 : ¬ a.length ≠ b.length := fun h => h hlen
    have h2 : ¬ (qvec a).length ≠ (qvec b).length := by
      rw [length_qvec, length_qvec]
      exact h1
    rw [if_neg h1, if_neg h2]
    simp only [normSq_qvec a, normSq_qvec b, ha, hb]
    by_cases hza : (na : ℚ) = 0
    · rw [if_pos (Or.inl (by rw [hza, mul_zero]))]
      rw [if_pos (Or.inl (by rw [hza]; norm_num))]
      simp
    · by_cases hzb : (nb : ℚ) = 0
      · rw [if_pos (Or.inr (by rw [hzb, mul_zero]))]
        rw [if_pos (Or.inr (by rw [hzb]; norm_num))]
        simp
      · have hra : (((na : ℚ) * na : ℚ) : ℝ) ≠ 0 := by
          rw [Rat.cast_ne_zero]
          exact mul_ne_zero hza hza
        have hrb : (((nb : ℚ) * nb : ℚ) : ℝ) ≠ 0 := by
          rw [Rat.cast_ne_zero]
          exact mul_ne_zero hzb hzb
        rw [if_neg (by
          rintro (h | h)
          · exact hza (mul_self_eq_zero.mp h)
          · exact hzb (mul_self_eq_zero.mp h))]
        rw [if_neg (by
          rintro (h | h)
          · exact hra h
          · exact hrb h)]
        rw [ratSqrt_natCast, ratSqrt_natCast, dotProduct_qvec]
        have hsa : Real.sqrt (((na : ℚ) * na : ℚ) : ℝ) = ((na : ℚ) : ℝ) := by
          rw [Rat.cast_mul, Real.sqrt_mul_self (by positivity)]
        have hsb : Real.sqrt (((nb : ℚ) * nb : ℚ) : ℝ) = ((nb : ℚ) : ℝ) := by
          rw [Rat.cast_mul, Real.sqrt_mul_self (by positivity)]
        rw [hsa, hsb, Rat.cast_div, Rat.cast_mul]
  · rw [if_pos hlen]
    rw [if_pos (by rw [length_qvec, length_qvec]; exact hlen)]
    simp

/-- Score of the entry at position `i` of the `scores` slice built by
`SimilaritySearch` (rag.go:412-416); positions out of range are never queried by
the sort. -/
def scoreAt (l : List (Chunk × ℚ)) (i : Nat) : ℚ := ((l.get? i).map Prod.snd).getD 0

/-- The comparison closure passed to `sort.Slice` (rag.go:419-421):
`scores[i].score > scores[j].score`, i.e. sort by descending score. -/
def lessGo (l : List (Chunk × ℚ)) (i j : Nat) : Bool := decide (scoreAt l j < scoreAt l i)

/-- The `Swap` of the reflection-based `lessSwap` used by `sort.Slice`. -/
def swapGo (l : List (Chunk × ℚ)) (i j : Nat) : List (Chunk × ℚ) :=
  match l.get? i, l.get? j with
  | some a, some b => (l.set i b).set j a
  | _, _ => l

/-- The gap-6 ShellSort pass of Go 1.18 `quickSort_func` (sort.go, executed for
every slice of length ≤ 12, the go.mod of this repository pinning go 1.18):
`for i := a+6; i < b; i++ if Less(i, i-6) Swap(i, i-6)`. -/
def shellPassGo (l : List (Chunk × ℚ)) : List (Chunk × ℚ) :=
  (List.range' 6 (l.length - 6)).foldl
    (fun acc i => if lessGo acc i (i - 6) then swapGo acc i (i - 6) else acc) l

/-- The inner loop of Go's `insertionSort_func`:
`for j := i; j > a && Less(j, j-1); j-- Swap(j, j-1)` (with a = 0). -/
def insertInnerGo : List (Chunk × ℚ) → Nat → List (Chunk × ℚ)
  | l, 0 => l
  | l, j + 1 => if lessGo l (j + 1) j then insertInnerGo (swapGo l (j + 1) j) j else l

/-- Go's `insertionSort_func` over the whole slice: `for i := a+1; i < b; i++`
run the inner loop at `i`. -/
def insertionSortGo (l : List (Chunk × ℚ)) : List (Chunk × ℚ) :=
  (List.range' 1 (l.length - 1)).foldl (fun acc i => insertInnerGo acc i) l

/-- Model of Go 1.18 `sort.Slice` (`quickSort_func`, sort.go) restricted to slices
of length ≤ 12, for which the quicksort outer loop is skipped and the code runs the
gap-6 ShellSort pass followed by `insertionSort_func` (nothing at all for length
≤ 1).  The quicksort path taken for longer slices is not modelled; the junk value
`[]` marks it, and no theorem below touches a store of more than 12 chunks.
`sort.Slice` is documented as not stable, and this small-slice path is exactly
where the instability of C1 shows up. -/
def sortSliceGo (l : List (Chunk × ℚ)) : List (Chunk × ℚ) :=
  if l.length ≤ 1 then l
  else if l.length ≤ 12 then insertionSortGo (shellPassGo l)
  else []

/-- Model of `MemoryVectorStore.SimilaritySearch` (rag.go:402-430): under the store
mutex, score every stored chunk against the query embedding in insertion order,
sort by descending score with `sort.Slice`, return the first `limit` chunks and a
`nil` error.  (The string-keyed variant of the source errors on an empty store;
spec §9 adopts this embedding-keyed variant as canonical.) -/
def SimilaritySearch (store : List Chunk) (embedding : List ℚ) (limit : Nat) :
    Except String (List Chunk) :=
  let scores := store.map fun c => (c, cosineSimilarityQ embedding c.embedding)
  let sorted := sortSliceGo scores
  .ok ((sorted.take limit).map Prod.fst)

/-- C2: searching an empty store returns an empty sequence and no error, for every
query embedding and every limit. -/
theorem SimilaritySearch_empty_store (embedding : List ℚ) (limit : Nat) :
    SimilaritySearch [] embedding limit = .ok [] := by
  simp [SimilaritySearch, sortSliceGo]

theorem ratSqrt_one : ratSqrt 1 = 1 := by
  have h := ratSqrt_natCast 1
  norm_num at h
  exact h

theorem ratSqrt_twentyfive : ratSqrt 25 = 5 := by
  have h := ratSqrt_natCast 5
  norm_num at h
  exact h

theorem simQ_unit : cosineSimilarityQ [1, 0] [1, 0] = 1 := by
  norm_num [cosineSimilarityQ, ratSqrt_one]

theorem simQ_orth : cosineSimilarityQ [1, 0] [0, 1] = 0 := by
  norm_num [cosineSimilarityQ]

theorem simQ_threefive : cosineSimilarityQ [1, 0] [3, 4] = 3 / 5 := by
  norm_num [cosineSimilarityQ, ratSqrt_one, ratSqrt_twentyfive]

/-- An 8-chunk fixture for C1.  Embedding vectors are chosen so that every cosine
similarity against the query `[1, 0]` is exact even in float32: `[1,0] ↦ 1`,
`[0,1] ↦ 0`, `[3,4] ↦ 3/5` (norms 1, 1 and 5 — perfect squares), and the two tied
chunks `tie1`/`tie2` carry bitwise-identical embeddings, so their float32 scores
are exactly equal as well. -/
def tieStore : List Chunk :=
  [⟨"c0", "doc", [], [], [1, 0]⟩, ⟨"c1", "doc", [], [], [0, 1]⟩,
   ⟨"c2", "doc", [], [], [0, 1]⟩, ⟨"c3", "doc", [], [], [1, 0]⟩,
   ⟨"c4", "doc", [], [], [1, 0]⟩, ⟨"c5", "doc", [], [], [1, 0]⟩,
   ⟨"c6", "doc", [], [], [1, 0]⟩, ⟨"c7", "doc", [], [], [3, 4]⟩]

/-- C1 fails on the code: on `tieStore` the chunks "c1" (inserted at position 1)
and "c2" (inserted at position 2) have exactly equal similarity 0 to the query
`[1, 0]`, yet the search returns "c2" *before* "c1": Go 1.18 `sort.Slice`'s gap-6
ShellSort pass swaps positions 1 and 7 (score 3/5 > 0), carrying "c1" behind "c2",
and the subsequent stable insertion sort keeps that inverted order.  The result is
still sorted by descending score — only the tie-breaking by insertion order is
violated. -/
theorem SimilaritySearch_reorders_equal_scores :
    (tieStore.map fun c => cosineSimilarityQ [1, 0] c.embedding) =
        [1, 0, 0, 1, 1, 1, 1, 3 / 5] ∧
    SimilaritySearch tieStore [1, 0] 8 =
      .ok [⟨"c0", "doc", [], [], [1, 0]⟩, ⟨"c3", "doc", [], [], [1, 0]⟩,
           ⟨"c4", "doc", [], [], [1, 0]⟩, ⟨"c5", "doc", [], [], [1, 0]⟩,
           ⟨"c6", "doc", [], [], [1, 0]⟩, ⟨"c7", "doc", [], [], [3, 4]⟩,
           ⟨"c2", "doc", [], [], [0, 1]⟩, ⟨"c1", "doc", [], [], [0, 1]⟩] := by
  constructor
  · norm_num [tieStore, simQ_unit, simQ_orth, simQ_threefive]
  · norm_num [SimilaritySearch, sortSliceGo, shellPassGo, insertionSortGo, insertInnerGo,
      lessGo, swapGo, scoreAt, tieStore, simQ_unit, simQ_orth, simQ_threefive, List.range']

/-- Assignment `m[k] = v` on a Go `map[string]bool`, modelled as an association
list: overwrite the existing entry for `k` or append a new one. -/
def goMapSet : List (String × Bool) → String → Bool → List (String × Bool)
  | [], k, v => [(k, v)]
  | (k', v') :: t, k, v =>
    if k' = k then (k, v) :: t else (k', v') :: goMapSet t k v

/-- Read `m[k]` on a Go `map[string]bool`: the stored value, or the zero value
`false` when the key is absent. -/
def goMapGet : List (String × Bool) → String → Bool
  | [], _ => false
  | (k', v) :: t, k => if k = k' then v else goMapGet t k

/-- Model of `MemoryVectorStore.Delete` (rag.go:433-454): under the store mutex,
build `idMap` with `idMap[id] = true` for every given id, keep (in order) exactly
the chunks with `!idMap[chunk.ID]`, and return `nil`. -/
def Delete (store : List Chunk) (ids : List String) : Except String (List Chunk) :=
  let idMap := ids.foldl (fun m i => goMapSet m i true) []
  .ok (store.filter fun c => !(goMapGet idMap c.id))

theorem goMapGet_goMapSet (m : List (String × Bool)) (k : String) (v : Bool)
    (k' : String) : goMapGet (goMapSet m k v) k' = if k' = k then v else goMapGet m k' := by
  induction m with
  | nil =>
    by_cases h : k' = k <;> simp [goMapSet, goMapGet, h]
  | cons p t ih =>
    obtain ⟨k₀, v₀⟩ := p
    by_cases h0 : k₀ = k
    · subst h0
      by_cases h : k' = k₀ <;> simp [goMapSet, goMapGet, h]
    · by_cases h : k' = k₀
      · subst h
        simp [goMapSet, goMapGet, h0]
      · simp [goMapSet, goMapGet, h0, h, ih]

theorem goMapGet_idMap (ids : List String) (m : List (String × Bool)) (k : String) :
    goMapGet (ids.foldl (fun m i => goMapSet m i true) m) k =
      (ids.contains k || goMapGet m k) := by
  induction ids generalizing m with
  | nil => rw [List.foldl_nil, List.contains_nil, Bool.false_or]
  | cons i t ih =>
    rw [List.foldl_cons, ih, goMapGet_goMapSet]
    by_cases h : k = i
    · subst h
      simp [List.contains_cons]
    · simp [List.contains_cons, h, Ne.symm h]

/-- C10: `Delete` always returns success (also when some or all ids match
nothing), and the surviving store is exactly the insertion-ordered sublist of
chunks whose ID is not among the given identifiers. -/
theorem Delete_spec (store : List Chunk) (ids : List String) :
    Delete store ids = .ok (store.filter fun c => !(ids.contains c.id)) ∧
    (store.filter fun c => !(ids.contains c.id)).Sublist store ∧
    (∀ c : Chunk, c ∈ store.filter (fun c => !(ids.contains c.id)) ↔
      c ∈ store ∧ c.id ∉ ids) := by
  refine ⟨?_, List.filter_sublist store, ?_⟩
  · rw [Delete]
    congr 1
    apply List.filter_congr
    intro c _
    rw [goMapGet_idMap, goMapGet, Bool.or_false]
  · intro c
    simp [List.mem_filter]

/-- The scanning loop of Go `strings.Replace(s, old, new, -1)` for a non-empty
pattern `p :: ps`: at each position, replace the leftmost occurrence of the pattern
and continue after it, otherwise copy one character.  The extra `fuel` argument
(run with `fuel = s.length`, which suffices since every step consumes at least one
character) only makes the recursion structural, keeping the definition
kernel-computable; with enough fuel it never hits the fuel-exhausted case. -/
def replaceLoop (p : Char) (ps rep : List Char) : Nat → List Char → List Char
  | _, [] => []
  | 0, s => s
  | fuel + 1, c :: t =>
    if (p :: ps).isPrefixOf (c :: t) then
      rep ++ replaceLoop p ps rep fuel (t.drop ps.length)
    else
      c :: replaceLoop p ps rep fuel t

/-- Model of Go `strings.ReplaceAll(s, pat, rep)`: every non-overlapping occurrence
of `pat` in `s`, scanned left to right, is replaced by `rep`; an empty pattern
matches before every character and at the end (the `Count(s, "") = len+1`
behaviour of `strings.Replace`). -/
def ReplaceAll (s pat rep : List Char) : List Char :=
  match pat with
  | [] => rep ++ s.foldr (fun c acc => c :: (rep ++ acc)) []
  | p :: ps => replaceLoop p ps rep s.length s

/-- One `"Context {i+1}:\n{content}\n\n"` block of `QueryEngine.Query`
(query_engine.go:102-112), followed by the `"Metadata:\n"` block when requested and
non-empty.  The Go code renders the metadata by ranging over a `map`, whose order
is unspecified; the model renders the model's stored list order (see C8). -/
def contextEntry (includeMetadata : Bool) (i : Nat) (c : Chunk) : List Char :=
  "Context ".data ++ (toString (i + 1)).data ++ ":\n".data ++ c.content ++ "\n\n".data ++
    (if includeMetadata && !c.metadata.isEmpty then
      "Metadata:\n".data ++
        (c.metadata.foldr (fun kv acc => kv.1.data ++ ": ".data ++ kv.2.data ++ "\n".data ++ acc) []) ++
        "\n".data
    else [])

/-- The `contextBuilder` accumulation of `QueryEngine.Query`
(query_engine.go:101-113): one labelled block per retrieved chunk, in order. -/
def buildContext (includeMetadata : Bool) (docs : List Chunk) : List Char :=
  (docs.enum.map fun p => contextEntry includeMetadata p.1 p.2).foldl
    (fun acc e => acc ++ e) []

/-- The prompt assembly of `QueryEngine.Query` (query_engine.go:115-118): replace
every `\x7b\x7bcontext\x7d\x7d` in the template by the built context, then every
`\x7b\x7bquery\x7d\x7d` in the result by the query text. -/
def QueryAssemble (promptTemplate queryText : List Char) (includeMetadata : Bool)
    (docs : List Chunk) : List Char :=
  let ctx := buildContext includeMetadata docs
  ReplaceAll (ReplaceAll promptTemplate "\x7b\x7bcontext\x7d\x7d".data ctx)
    "\x7b\x7bquery\x7d\x7d".data queryText

theorem isPrefixOf_imp_occurs : ∀ (l₁ l₂ : List Char), l₁.isPrefixOf l₂ = true →
    l₁ <:+: l₂ := by
  have haux : ∀ (l₁ l₂ : List Char), l₁.isPrefixOf l₂ = true → ∃ t, l₁ ++ t = l₂ := by
    intro l₁
    induction l₁ with
    | nil => intro l₂ _; exact ⟨l₂, rfl⟩
    | cons a s ih =>
      intro l₂ h
      cases l₂ with
      | nil => simp [List.isPrefixOf] at h
      | cons b t =>
        rw [List.isPrefixOf, Bool.and_eq_true, beq_iff_eq] at h
        obtain ⟨rfl, hpf⟩ := h
        obtain ⟨u, hu⟩ := ih t hpf
        exact ⟨u, by rw [List.cons_append, hu]⟩
  intro l₁ l₂ h
  obtain ⟨t, ht⟩ := haux l₁ l₂ h
  exact ⟨[], t, by rw [List.nil_append, ht]⟩

theorem replaceLoop_no_occurrence (p : Char) (ps rep : List Char) :
    ∀ (fuel : Nat) (s : List Char), ¬ (p :: ps) <:+: s →
      replaceLoop p ps rep fuel s = s := by
  intro fuel
  induction fuel with
  | zero =>
    intro s _
    cases s with
    | nil => rfl
    | cons c t => rfl
  | succ fuel ih =>
    intro s hni
    cases s with
    | nil => rfl
    | cons c t =>
      rw [replaceLoop]
      rw [if_neg ?_]
      · rw [ih t ?_]
        intro hin
        exact hni (hin.trans (List.suffix_cons c t).isInfix)
      · intro hp
        exact hni (isPrefixOf_imp_occurs _ _ hp)

theorem ReplaceAll_no_occurrence (s pat rep : List Char) (hne : pat ≠ [])
    (hni : ¬ pat <:+: s) : ReplaceAll s pat rep = s := by
  match pat with
  | [] => exact absurd rfl hne
  | p :: ps => exact replaceLoop_no_occurrence p ps rep s.length s hni

/-- C7: the assembler replaces every occurrence of the two placeholders — shown by
the claim's own concrete case (template `"Q: \x7b\x7bquery\x7d\x7d C: \x7b\x7bcontext\x7d\x7d"`,
query `"X"`, one chunk of content `"Y"`, assembling to
`"Q: X C: Context 1:\nY\n\n"`) and by a doubled-placeholder case — and is a no-op
on templates containing neither placeholder. -/
theorem QueryAssemble_spec :
    QueryAssemble "Q: \x7b\x7bquery\x7d\x7d C: \x7b\x7bcontext\x7d\x7d".data "X".data false
        [⟨"c1", "d1", "Y".data, [], [1]⟩] = "Q: X C: Context 1:\nY\n\n".data ∧
    QueryAssemble "\x7b\x7bquery\x7d\x7d|\x7b\x7bquery\x7d\x7d".data "A".data false [] =
      "A|A".data ∧
    (∀ (promptTemplate queryText : List Char) (includeMetadata : Bool) (docs : List Chunk),
      ¬ "\x7b\x7bcontext\x7d\x7d".data <:+: promptTemplate →
      ¬ "\x7b\x7bquery\x7d\x7d".data <:+: promptTemplate →
      QueryAssemble promptTemplate queryText includeMetadata docs = promptTemplate) := by
  refine ⟨by decide, by decide, ?_⟩
  intro promptTemplate queryText includeMetadata docs hc hq
  rw [QueryAssemble]
  rw [ReplaceAll_no_occurrence _ _ _ (by decide) hc]
  rw [ReplaceAll_no_occurrence _ _ _ (by decide) hq]

/-- Witness for C7's no-op clause: a template without placeholders is untouched,
also with metadata present and requested. -/
theorem QueryAssemble_spec_witness :
    QueryAssemble "Hello".data "q".data true [⟨"a", "d", "Z".data, [("k", "v")], [1]⟩] =
      "Hello".data :=
  QueryAssemble_spec.2.2 "Hello".data "q".data true [⟨"a", "d", "Z".data, [("k", "v")], [1]⟩]
    (by decide) (by decide)

/-- The Embedding Gateway (`EmbeddingsProvider.EmbedDocument`), an external
collaborator: a function from text to an embedding vector or an error. -/
def Embedder : Type := List Char → Except String (List ℚ)

/-- The per-chunk embedding loop of `RAG.AddDocument` (rag.go:145-151): embed each
chunk's content in order, stopping at the first failure with the wrapped error. -/
def embedChunksLoop (embed : Embedder) : List Chunk → Except String (List Chunk)
  | [] => .ok []
  | c :: cs =>
    match embed c.content with
    | .error e => .error ("failed to embed chunk: " ++ e)
    | .ok v =>
      match embedChunksLoop embed cs with
      | .error e => .error e
      | .ok cs' => .ok ({ c with embedding := v } :: cs')

/-- Model of `RAG.AddDocument` (rag.go:131-159) against `MemoryVectorStore`: embed
the document itself when it has no embedding yet (a failure aborts before
chunking), chunk it, embed every chunk (a failure aborts before any insertion),
then append the embedded chunks to the store in one `AddChunks` call.  Returns the
new store and the error of the Go method (`none` for `nil`). -/
def AddDocument (embed : Embedder) (chunkSize chunkOverlap : Nat)
    (store : List Chunk) (document : Document) : List Chunk × Option String :=
  let docStep : Except String Unit :=
    match document.embedding with
    | some _ => .ok ()
    | none =>
      match embed document.content with
      | .error e => .error ("failed to embed document: " ++ e)
      | .ok _ => .ok ()
  match docStep with
  | .error e => (store, some e)
  | .ok _ =>
    match embedChunksLoop embed (chunkDocument chunkSize chunkOverlap document) with
    | .error e => (store, some e)
    | .ok cs =>
      match AddChunks store cs with
      | .error e => (store, some ("failed to add chunks to vector store: " ++ e))
      | .ok s' => (s', none)

/-- Model of `RAG.AddDocuments` (rag.go:162-169): apply `AddDocument` to each
document in order, stopping at the first error; documents added before the failure
stay in the store. -/
def AddDocuments (embed : Embedder) (chunkSize chunkOverlap : Nat)
    (store : List Chunk) : List Document → List Chunk × Option String
  | [] => (store, none)
  | d :: ds =>
    let r := AddDocument embed chunkSize chunkOverlap store d
    match r.2 with
    | some e => (r.1, some e)
    | none => AddDocuments embed chunkSize chunkOverlap r.1 ds

theorem embedChunksLoop_error (embed : Embedder) (cs : List Chunk)
    (h : ∃ c ∈ cs, ∃ e, embed c.content = .error e) :
    ∃ e', embedChunksLoop embed cs = .error e' := by
  induction cs with
  | nil => rcases h with ⟨c, hc, _⟩; exact absurd hc (List.not_mem_nil c)
  | cons c t ih =>
    rw [embedChunksLoop]
    cases hc : embed c.content with
    | error e => exact ⟨"failed to embed chunk: " ++ e, rfl⟩
    | ok v =>
      rcases h with ⟨c', hc', e', he'⟩
      rcases List.mem_cons.mp hc' with rfl | hmem
      · rw [hc] at he'
        exact absurd he' (by intro hh; injection hh)
      · rcases ih ⟨c', hmem, e', he'⟩ with ⟨e'', he''⟩
        rw [he'']
        exact ⟨e'', rfl⟩

theorem AddDocument_chunk_failure (embed : Embedder) (chunkSize chunkOverlap : Nat)
    (store : List Chunk) (d : Document)
    (hdoc : d.embedding ≠ none ∨ ∃ v, embed d.content = .ok v)
    (hfail : ∃ c ∈ chunkDocument chunkSize chunkOverlap d, ∃ e, embed c.content = .error e) :
    (AddDocument embed chunkSize chunkOverlap store d).1 = store ∧
    (AddDocument embed chunkSize chunkOverlap store d).2.isSome = true := by
  rcases embedChunksLoop_error embed _ hfail with ⟨e', he'⟩
  rw [AddDocument]
  have hstep : (match d.embedding with
      | some _ => (.ok () : Except String Unit)
      | none =>
        match embed d.content with
        | .error e => .error ("failed to embed document: " ++ e)
        | .ok _ => .ok ()) = .ok () := by
    rcases hdoc with h | ⟨v, hv⟩
    · cases hemb : d.embedding with
      | none => exact absurd hemb h
      | some w => rfl
    · cases hemb : d.embedding with
      | none => rw [hv]
      | some w => rfl
  rw [hstep, he']
  exact ⟨rfl, rfl⟩

theorem AddDocuments_append (embed : Embedder) (chunkSize chunkOverlap : Nat) :
    ∀ (pre l : List Document) (store : List Chunk),
      (AddDocuments embed chunkSize chunkOverlap store pre).2 = none →
      AddDocuments embed chunkSize chunkOverlap store (pre ++ l) =
        AddDocuments embed chunkSize chunkOverlap
          (AddDocuments embed chunkSize chunkOverlap store pre).1 l := by
  intro pre
  induction pre with
  | nil => intro l store _; rfl
  | cons d ds ih =>
    intro l store hok
    rw [List.cons_append, AddDocuments]
    rw [AddDocuments] at hok
    cases hr : (AddDocument embed chunkSize chunkOverlap store d).2 with
    | some e =>
      rw [hr] at hok
      simp at hok
    | none =>
      rw [hr] at hok
      simp only
      rw [ih l _ hok]
      congr 1
      rw [AddDocuments, hr]

/-- C6: if the Embedding Gateway fails on some chunk of a document `d` (while the
document-level embedding step succeeds), `AddDocument` reports an error and leaves
the store exactly as it was — nothing of `d` is inserted; and `AddDocuments` run on
`pre ++ d :: rest`, where every document of `pre` succeeds, stops at `d`: it
returns the store committed by `pre` unchanged together with `d`'s error, and the
documents of `rest` are never processed. -/
theorem AddDocuments_first_failure (embed : Embedder) (chunkSize chunkOverlap : Nat)
    (store : List Chunk) (pre rest : List Document) (d : Document)
    (hdoc : d.embedding ≠ none ∨ ∃ v, embed d.content = .ok v)
    (hfail : ∃ c ∈ chunkDocument chunkSize chunkOverlap d, ∃ e, embed c.content = .error e)
    (hpre : (AddDocuments embed chunkSize chunkOverlap store pre).2 = none) :
    (AddDocument embed chunkSize chunkOverlap
        (AddDocuments embed chunkSize chunkOverlap store pre).1 d).1 =
      (AddDocuments embed chunkSize chunkOverlap store pre).1 ∧
    (AddDocument embed chunkSize chunkOverlap
        (AddDocuments embed chunkSize chunkOverlap store pre).1 d).2.isSome = true ∧
    AddDocuments embed chunkSize chunkOverlap store (pre ++ d :: rest) =
      AddDocument embed chunkSize chunkOverlap
        (AddDocuments embed chunkSize chunkOverlap store pre).1 d := by
  obtain ⟨h1, h2⟩ := AddDocument_chunk_failure embed chunkSize chunkOverlap
    (AddDocuments embed chunkSize chunkOverlap store pre).1 d hdoc hfail
  refine ⟨h1, h2, ?_⟩
  rw [AddDocuments_append embed chunkSize chunkOverlap pre (d :: rest) store hpre]
  rw [AddDocuments]
  cases hr : (AddDocument embed chunkSize chunkOverlap
      (AddDocuments embed chunkSize chunkOverlap store pre).1 d).2 with
  | some e =>
    simp only [hr]
    rw [← hr]
  | none => rw [hr] at h2; simp at h2

/-- A concrete Embedding Gateway stub that fails exactly on the text "b". -/
def embedW : Embedder := fun c => if c = ['b'] then .error "boom" else .ok [1]

/-- Witness for C6: document "a" (content "x") embeds fine and commits chunk "a-0";
document "b" (content "b", document-level embedding already present) fails at its
single chunk, so the batch stops with the wrapped chunk error and the store still
holds exactly the chunk of document "a". -/
theorem AddDocuments_first_failure_witness :
    AddDocuments embedW 4 0 []
        [⟨"a", ['x'], [], none⟩, ⟨"b", ['b'], [], some []⟩] =
      ([⟨"a-0", "a", ['x'], [], [1]⟩], some "failed to embed chunk: boom") := by
  have h := AddDocuments_first_failure embedW 4 0 [] [⟨"a", ['x'], [], none⟩] []
    ⟨"b", ['b'], [], some []⟩
    (Or.inl (by decide))
    ⟨⟨"b-0", "b", ['b'], [], []⟩, by decide, "boom", rfl⟩
    rfl
  calc AddDocuments embedW 4 0 [] [⟨"a", ['x'], [], none⟩, ⟨"b", ['b'], [], some []⟩]
      = AddDocuments embedW 4 0 []
          ([⟨"a", ['x'], [], none⟩] ++ ⟨"b", ['b'], [], some []⟩ :: []) := rfl
    _ = AddDocument embedW 4 0 (AddDocuments embedW 4 0 [] [⟨"a", ['x'], [], none⟩]).1
          ⟨"b", ['b'], [], some []⟩ := h.2.2
    _ = ([⟨"a-0", "a", ['x'], [], [1]⟩], some "failed to embed chunk: boom") := rfl

end Gollem
